import Mathlib

/-!
# Verification of the apitrace trace writer (`src/trace_writer.cpp`)

A shallow embedding of the trace writer core: the varint byte encoder, the
writer state (stream handle, call counter, the four definition caches), the
event framing operations, and the memory-region diffing engine.

Conventions of the embedding:
* machine addresses, sizes and bytes are `Nat`; the null pointer is address 0;
* the compressed output stream is modelled as the list of bytes pushed to it
  (`gzwrite` appends; compression itself is invisible to the writer logic);
* the OS collaborators (`OS::AcquireMutex` / `ReleaseMutex`,
  `OS::DebugMessage`, `OS::queryVirtualAddress`) are externals: the mutex and
  debug messages have no effect on writer state in a sequential model, and the
  virtual-address query is passed in as a function parameter;
* C strings (function/argument names) are byte lists.

Headers of this repository that are not available (`trace_format.hpp`,
`range.hpp`, the inline `endArg`/`endReturn`/`endArray` of
`trace_writer.hpp`) and the zlib `crc32` are modelled from the spec, each
marked as such in its doc comment.
-/

namespace Trace

/-- Modelled from the spec: `trace_format.hpp` is not in `src/`.  The spec
only states that event tags and value type tags are one byte each; the
concrete values below are chosen distinct (claims do not depend on them). -/
def EVENT_ENTER : Nat := 0

/-- Modelled from the spec: event tag, see `EVENT_ENTER`. -/
def EVENT_LEAVE : Nat := 1

/-- Modelled from the spec: call detail tag, see `EVENT_ENTER`. -/
def CALL_END : Nat := 2

/-- Modelled from the spec: call detail tag, see `EVENT_ENTER`. -/
def CALL_ARG : Nat := 3

/-- Modelled from the spec: call detail tag, see `EVENT_ENTER`. -/
def CALL_RET : Nat := 4

/-- Modelled from the spec: value type tag, see `EVENT_ENTER`. -/
def TYPE_NULL : Nat := 5

/-- Modelled from the spec: value type tag, see `EVENT_ENTER`. -/
def TYPE_FALSE : Nat := 6

/-- Modelled from the spec: value type tag, see `EVENT_ENTER`. -/
def TYPE_TRUE : Nat := 7

/-- Modelled from the spec: value type tag, see `EVENT_ENTER`. -/
def TYPE_SINT : Nat := 8

/-- Modelled from the spec: value type tag, see `EVENT_ENTER`. -/
def TYPE_UINT : Nat := 9

/-- Modelled from the spec: value type tag, see `EVENT_ENTER`. -/
def TYPE_FLOAT : Nat := 10

/-- Modelled from the spec: value type tag, see `EVENT_ENTER`. -/
def TYPE_DOUBLE : Nat := 11

/-- Modelled from the spec: value type tag, see `EVENT_ENTER`. -/
def TYPE_STRING : Nat := 12

/-- Modelled from the spec: value type tag, see `EVENT_ENTER`. -/
def TYPE_BLOB : Nat := 13

/-- Modelled from the spec: value type tag, see `EVENT_ENTER`. -/
def TYPE_ENUM : Nat := 14

/-- Modelled from the spec: value type tag, see `EVENT_ENTER`. -/
def TYPE_BITMASK : Nat := 15

/-- Modelled from the spec: value type tag, see `EVENT_ENTER`. -/
def TYPE_ARRAY : Nat := 16

/-- Modelled from the spec: value type tag, see `EVENT_ENTER`. -/
def TYPE_STRUCT : Nat := 17

/-- Modelled from the spec: value type tag, see `EVENT_ENTER`. -/
def TYPE_OPAQUE : Nat := 18

/-- Modelled from the spec: `TRACE_VERSION` lives in `trace_format.hpp`,
which is not in `src/`; the spec says only "one varint-encoded version
constant".  The concrete value is irrelevant to every claim. -/
def TRACE_VERSION : Nat := 1

/-- The do-while loop body of `Writer::_writeUInt` (lines 146-152): emit
`0x80 | (value & 0x7f)` and shift by 7 until the value is zero.  Every byte
produced here still has the continuation bit set.  The loop variable
decreases by a 7-bit shift, so recursion is phrased structurally over a
fuel argument; `value + 1` units of fuel always suffice
(`varintLoopAux_fuel`), keeping the definition kernel-computable. -/
def varintLoopAux : Nat → Nat → List Nat
  | _, 0 => []
  | value, fuel + 1 =>
    let b := 0x80 ||| (value &&& 0x7f)
    let v := value >>> 7
    if v = 0 then [b] else b :: varintLoopAux v fuel

/-- The full do-while loop of `Writer::_writeUInt`. -/
def varintLoop (value : Nat) : List Nat :=
  varintLoopAux value (value + 1)

theorem shiftRight_7_eq_div (v : Nat) : v >>> 7 = v / 128 := by
  rw [Nat.shiftRight_eq_div_pow]

theorem varintLoopAux_fuel : ∀ (f1 v f2 : Nat), v < f1 → v < f2 →
    varintLoopAux v f1 = varintLoopAux v f2 := by
  intro f1
  induction f1 with
  | zero => omega
  | succ f ih =>
    intro v f2 h1 h2
    cases f2 with
    | zero => omega
    | succ g =>
      simp only [varintLoopAux]
      by_cases hz : v >>> 7 = 0
      · simp [hz]
      · simp only [if_neg hz]
        have hd := shiftRight_7_eq_div v
        have hlt : v >>> 7 < v := by
          rw [hd]; exact Nat.div_lt_self (by omega) (by norm_num)
        rw [ih (v >>> 7) g (by omega) (by omega)]

theorem varintLoop_unfold (v : Nat) :
    varintLoop v = if v >>> 7 = 0 then [0x80 ||| (v &&& 0x7f)]
      else (0x80 ||| (v &&& 0x7f)) :: varintLoop (v >>> 7) := by
  rw [varintLoop, varintLoop, varintLoopAux]
  by_cases hz : v >>> 7 = 0
  · simp [hz]
  · simp only [if_neg hz]
    have hd := shiftRight_7_eq_div v
    have hlt : v >>> 7 < v := by
      rw [hd]; exact Nat.div_lt_self (by omega) (by norm_num)
    rw [varintLoopAux_fuel v (v >>> 7) (v >>> 7 + 1) (by omega) (by omega)]

/-- `buf[len - 1] &= 0x7f` (line 155): clear the continuation bit of the
last byte of the buffer. -/
def maskLast : List Nat → List Nat
  | [] => []
  | [b] => [b &&& 0x7f]
  | b :: rest => b :: maskLast rest

/-- The byte sequence produced by `Writer::_writeUInt` (lines 141-158) for a
given value: the do-while loop followed by clearing the last byte's
continuation bit. -/
def writeUIntBytes (value : Nat) : List Nat :=
  maskLast (varintLoop value)

/-- Modelled from the spec: the decoder is the replay side, not part of this
file; the spec (and the claim) define decoding as base-128
little-group-endian, 7 data bits per byte. -/
def decodeVarint : List Nat → Nat
  | [] => 0
  | b :: rest => (b &&& 0x7f) + 0x80 * decodeVarint rest

/-- Halving recursion counting the significant bits of `n`, structurally on
a fuel argument (`n` units always suffice, see `bitsAux_fuel`). -/
def bitsAux : Nat → Nat → Nat
  | _, 0 => 0
  | n, fuel + 1 => if n = 0 then 0 else bitsAux (n / 2) fuel + 1

/-- Modelled from the spec: `bits_needed(v)`, the number of significant bits
of `v` (0 for `v = 0`). -/
def bitsNeeded (v : Nat) : Nat :=
  bitsAux v v

/-- Modelled from the spec: the well-formedness of a varint byte string —
the continuation (high) bit is set on every byte except the last, where it
is clear. -/
def highBitsOk : List Nat → Bool
  | [] => true
  | [b] => b < 0x80
  | b :: rest => 0x80 ≤ b && highBitsOk rest

theorem lor_and_cancel : ∀ m : Nat, m < 128 → (128 ||| m) &&& 127 = m := by
  decide

theorem lor_ge : ∀ m : Nat, m < 128 → 128 ≤ 128 ||| m := by
  decide

theorem lor_mod_cancel : ∀ m : Nat, m < 128 → (128 ||| m) % 128 = m := by
  decide

theorem land_127_eq_mod (v : Nat) : v &&& 127 = v % 128 := by
  have h : (127 : Nat) = 2 ^ 7 - 1 := by norm_num
  rw [h, Nat.and_pow_two_sub_one_eq_mod]

theorem varintLoop_ne_nil (v : Nat) : varintLoop v ≠ [] := by
  rw [varintLoop_unfold]
  split <;> simp

theorem maskLast_cons (b : Nat) (l : List Nat) (h : l ≠ []) :
    maskLast (b :: l) = b :: maskLast l := by
  cases l with
  | nil => exact absurd rfl h
  | cons x xs => rfl

theorem decode_roundtrip (v : Nat) : decodeVarint (writeUIntBytes v) = v := by
  induction v using Nat.strong_induction_on with
  | _ v ih =>
    rw [writeUIntBytes, varintLoop_unfold]
    simp only [land_127_eq_mod, shiftRight_7_eq_div]
    by_cases h : v / 128 = 0
    · rw [if_pos h]
      have hv : v < 128 := by omega
      simp only [maskLast, decodeVarint, land_127_eq_mod,
        lor_mod_cancel _ (Nat.mod_lt _ (by norm_num))]
      omega
    · rw [if_neg h]
      rw [maskLast_cons _ _ (varintLoop_ne_nil _)]
      have hlt : v / 128 < v := Nat.div_lt_self (by omega) (by norm_num)
      have hdec := ih (v / 128) hlt
      rw [writeUIntBytes] at hdec
      simp only [decodeVarint, land_127_eq_mod, hdec,
        lor_mod_cancel _ (Nat.mod_lt _ (by norm_num))]
      omega

theorem bitsAux_fuel : ∀ (f1 n f2 : Nat), n ≤ f1 → n ≤ f2 →
    bitsAux n f1 = bitsAux n f2 := by
  intro f1
  induction f1 with
  | zero =>
    intro n f2 h1 _
    have hn : n = 0 := by omega
    subst hn
    cases f2 <;> simp [bitsAux]
  | succ f ih =>
    intro n f2 h1 h2
    by_cases hn : n = 0
    · subst hn
      cases f2 <;> simp [bitsAux]
    · cases f2 with
      | zero => omega
      | succ g =>
        simp only [bitsAux, if_neg hn]
        rw [ih (n / 2) g (by omega) (by omega)]

theorem bitsNeeded_unfold (v : Nat) :
    bitsNeeded v = if v = 0 then 0 else bitsNeeded (v / 2) + 1 := by
  by_cases hv : v = 0
  · simp [hv, bitsNeeded, bitsAux]
  · rw [if_neg hv, bitsNeeded, bitsNeeded]
    cases v with
    | zero => exact absurd rfl hv
    | succ n =>
      simp only [bitsAux, if_neg hv]
      rw [bitsAux_fuel n ((n + 1) / 2) ((n + 1) / 2) (by omega) (by omega)]

theorem bitsNeeded_div128 (v : Nat) (h : 128 ≤ v) :
    bitsNeeded v = bitsNeeded (v / 128) + 7 := by
  rw [bitsNeeded_unfold v, if_neg (by omega),
    bitsNeeded_unfold (v / 2), if_neg (by omega),
    bitsNeeded_unfold (v / 2 / 2), if_neg (by omega),
    bitsNeeded_unfold (v / 2 / 2 / 2), if_neg (by omega),
    bitsNeeded_unfold (v / 2 / 2 / 2 / 2), if_neg (by omega),
    bitsNeeded_unfold (v / 2 / 2 / 2 / 2 / 2), if_neg (by omega),
    bitsNeeded_unfold (v / 2 / 2 / 2 / 2 / 2 / 2), if_neg (by omega)]
  have hv : v / 2 / 2 / 2 / 2 / 2 / 2 / 2 = v / 128 := by omega
  rw [hv]

theorem maskLast_length (l : List Nat) : (maskLast l).length = l.length := by
  induction l with
  | nil => rfl
  | cons b rest ih =>
    cases rest with
    | nil => rfl
    | cons x xs => simpa [maskLast] using ih

theorem bitsNeeded_le_7 : ∀ v : Nat, v < 128 → bitsNeeded v ≤ 7 := by
  decide

theorem bitsNeeded_pos (v : Nat) (h : v ≠ 0) : 1 ≤ bitsNeeded v := by
  rw [bitsNeeded_unfold, if_neg h]
  omega

theorem varint_length (v : Nat) :
    (writeUIntBytes v).length = max 1 ((bitsNeeded v + 6) / 7) := by
  induction v using Nat.strong_induction_on with
  | _ v ih =>
    rw [writeUIntBytes, maskLast_length, varintLoop_unfold,
      shiftRight_7_eq_div]
    by_cases h : v / 128 = 0
    · rw [if_pos h]
      have hb := bitsNeeded_le_7 v (by omega)
      simp only [List.length_singleton]
      omega
    · rw [if_neg h]
      have hlt : v / 128 < v := Nat.div_lt_self (by omega) (by norm_num)
      have hrec := ih (v / 128) hlt
      rw [writeUIntBytes, maskLast_length] at hrec
      simp only [List.length_cons, hrec, shiftRight_7_eq_div]
      have hstep := bitsNeeded_div128 v (by omega)
      have hpos := bitsNeeded_pos (v / 128) h
      omega

theorem maskLast_eq_nil (l : List Nat) (h : maskLast l = []) : l = [] := by
  cases l with
  | nil => rfl
  | cons b rest =>
    cases rest with
    | nil => simp [maskLast] at h
    | cons x xs => simp [maskLast] at h

theorem varintLoop_all_high (v : Nat) : ∀ b ∈ varintLoop v, 128 ≤ b := by
  induction v using Nat.strong_induction_on with
  | _ v ih =>
    rw [varintLoop_unfold, shiftRight_7_eq_div]
    by_cases h : v / 128 = 0
    · rw [if_pos h]
      intro b hb
      rw [List.mem_singleton] at hb
      subst hb
      exact lor_ge _ (by rw [land_127_eq_mod]; omega)
    · rw [if_neg h]
      intro b hb
      rw [List.mem_cons] at hb
      rcases hb with hb | hb
      · subst hb
        exact lor_ge _ (by rw [land_127_eq_mod]; omega)
      · exact ih (v / 128) (Nat.div_lt_self (by omega) (by norm_num)) b hb

theorem highBitsOk_maskLast (l : List Nat) (h : ∀ b ∈ l, 128 ≤ b) :
    highBitsOk (maskLast l) = true := by
  induction l with
  | nil => rfl
  | cons b rest ih =>
    cases rest with
    | nil =>
      simp only [maskLast, highBitsOk, land_127_eq_mod]
      have := Nat.mod_lt b (y := 128) (by norm_num)
      simp
      omega
    | cons x xs =>
      rw [maskLast_cons _ _ (by simp)]
      have hne : maskLast (x :: xs) ≠ [] := by
        intro hc
        exact absurd (maskLast_eq_nil _ hc) (by simp)
      cases he : maskLast (x :: xs) with
      | nil => exact absurd he hne
      | cons y ys =>
        rw [highBitsOk]
        · have h1 : 128 ≤ b := h b (by simp)
          have h2 := ih (fun c hc => h c (by simp [hc]))
          rw [he] at h2
          simp [h1, h2]
        · simp

theorem highBits_writeUIntBytes (v : Nat) :
    highBitsOk (writeUIntBytes v) = true :=
  highBitsOk_maskLast _ (varintLoop_all_high v)

/-- C2: for every unsigned 64-bit value `v`, the bytes written by
`Writer::_writeUInt` decode back to `v` under base-128 little-group-endian
decoding; the continuation (high) bit is set on every byte except the last;
the encoding of `0` is exactly the single byte `0x00`; and the encoded
length equals `ceil(bits_needed(v)/7)` with a minimum of 1. -/
theorem varint_roundtrip_spec (v : Nat) (_h : v < 2 ^ 64) :
    decodeVarint (writeUIntBytes v) = v ∧
    highBitsOk (writeUIntBytes v) = true ∧
    writeUIntBytes 0 = [0x00] ∧
    (writeUIntBytes v).length = max 1 ((bitsNeeded v + 6) / 7) :=
  ⟨decode_roundtrip v, highBits_writeUIntBytes v, by decide, varint_length v⟩

/-- Witness for `varint_roundtrip_spec`, at the concrete value `v = 300`. -/
theorem varint_roundtrip_spec_witness :
    decodeVarint (writeUIntBytes 300) = 300 ∧
    highBitsOk (writeUIntBytes 300) = true ∧
    writeUIntBytes 0 = [0x00] ∧
    (writeUIntBytes 300).length = max 1 ((bitsNeeded 300 + 6) / 7) :=
  varint_roundtrip_spec 300 (by norm_num)

/-- `Trace::FunctionSig` (from `trace_writer.hpp`, declared by the source's
uses): a numeric id, a name, and the argument names.  C strings are byte
lists; `num_args` is `args.length`. -/
structure FunctionSig where
  id : Nat
  name : List Nat
  args : List (List Nat)
deriving DecidableEq

/-- `Trace::StructSig`: id, name and member names. -/
structure StructSig where
  id : Nat
  name : List Nat
  members : List (List Nat)
deriving DecidableEq

/-- `Trace::EnumSig`: id, name, and the enum's single signed value. -/
structure EnumSig where
  id : Nat
  name : List Nat
  value : Int
deriving DecidableEq

/-- One flag of a `Trace::BitmaskSig`: a name/value pair. -/
structure BitmaskFlag where
  name : List Nat
  value : Nat
deriving DecidableEq

/-- `Trace::BitmaskSig`: id and the flag name/value pairs. -/
structure BitmaskSig where
  id : Nat
  flags : List BitmaskFlag
deriving DecidableEq

/-- The writer state (`Trace::Writer`, lines 47-52 and `trace_writer.hpp`):
the stream handle (`gzOpen` — whether `g_gzFile` is non-null), the bytes
pushed to the current stream (`out`), the call counter and the four
definition caches (`std::vector<bool>` is a `List Bool`). -/
structure Writer where
  gzOpen : Bool
  out : List Nat
  call_no : Nat
  functions : List Bool
  structs : List Bool
  enums : List Bool
  bitmasks : List Bool
deriving DecidableEq

/-- `Writer::_write` (lines 128-134): a no-op when no stream is open,
otherwise pushes the bytes onto the stream. -/
def _write (w : Writer) (buf : List Nat) : Writer :=
  if w.gzOpen then { w with out := w.out ++ buf } else w

/-- `Writer::_writeByte` (lines 136-139). -/
def _writeByte (w : Writer) (c : Nat) : Writer :=
  _write w [c]

/-- `Writer::_writeUInt` (lines 141-158): one `_write` of the varint
buffer. -/
def _writeUInt (w : Writer) (value : Nat) : Writer :=
  _write w (writeUIntBytes value)

/-- `Writer::_writeString` (lines 172-177): varint length then the raw
bytes. -/
def _writeString (w : Writer) (str : List Nat) : Writer :=
  _write (_writeUInt w str.length) str

/-- `lookup` (lines 179-186): auto-growing boolean membership on a
`std::vector<bool>`.  Growing (`resize`) pads with `false`; the function
returns the stored bit and the (possibly grown) map. -/
def lookup (map : List Bool) (index : Nat) : Bool × List Bool :=
  if map.length ≤ index then
    (false, map ++ List.replicate (index + 1 - map.length) false)
  else
    (map.getD index false, map)

/-- `Writer::close` (lines 58-64): idempotently drop the stream handle. -/
def close (w : Writer) : Writer :=
  { w with gzOpen := false }

/-- `Writer::open(const char *)` (lines 66-84).  `gzopen` is external; `ok`
says whether it produced a stream.  On failure the call counter and caches
are left as they were (the function returns early); on success they are
reset and the version header is written to the fresh stream. -/
def openFile (w : Writer) (ok : Bool) : Bool × Writer :=
  let w1 := close w
  if !ok then (false, w1)
  else
    let w2 : Writer :=
      { gzOpen := true, out := [], call_no := 0,
        functions := [], structs := [], enums := [], bitmasks := [] }
    (true, _writeUInt w2 TRACE_VERSION)

/-- `Writer::open(void)` (lines 86-126): derives a trace file name (an
external filesystem probe) and delegates to `open(filename)`; `ok` is the
external outcome of creating that stream. -/
def openAuto (w : Writer) (ok : Bool) : Writer :=
  (openFile w ok).2

/-- `Writer::beginEnter` (lines 188-207).  The `OS::AcquireMutex` call is
external.  The lazy `open()` on a null stream (lines 191-193) is
`openAuto`; `autoOpenOk` is the external outcome of that stream creation
(irrelevant when a stream is already open).  Returns the allocated call
number and the new state. -/
def beginEnter (autoOpenOk : Bool) (w : Writer) (sig : FunctionSig) :
    Nat × Writer :=
  let w0 := if w.gzOpen then w else openAuto w autoOpenOk
  let w1 := _writeByte w0 EVENT_ENTER
  let w2 := _writeUInt w1 sig.id
  let p := lookup w2.functions sig.id
  let w3 := { w2 with functions := p.2 }
  let w4 :=
    if p.1 then w3
    else
      let wa := _writeString w3 sig.name
      let wb := _writeUInt wa sig.args.length
      let wc := sig.args.foldl (fun acc a => _writeString acc a) wb
      { wc with functions := wc.functions.set sig.id true }
  (w4.call_no, { w4 with call_no := w4.call_no + 1 })

/-- `Writer::endEnter` (lines 209-213): frame terminator; the `gzflush` and
`OS::ReleaseMutex` do not change the bytes pushed to the stream. -/
def endEnter (w : Writer) : Writer :=
  _writeByte w CALL_END

/-- `Writer::beginLeave` (lines 215-219). -/
def beginLeave (w : Writer) (call : Nat) : Writer :=
  _writeUInt (_writeByte w EVENT_LEAVE) call

/-- `Writer::endLeave` (lines 221-225): as `endEnter`. -/
def endLeave (w : Writer) : Writer :=
  _writeByte w CALL_END

/-- `Writer::beginArg` (lines 227-230). -/
def beginArg (w : Writer) (index : Nat) : Writer :=
  _writeUInt (_writeByte w CALL_ARG) index

/-- `endArg`: an empty inline in `trace_writer.hpp` (not in `src/`);
modelled from the spec, whose framing grammar has no argument terminator. -/
def endArg (w : Writer) : Writer :=
  w

/-- `Writer::beginReturn` (lines 232-234). -/
def beginReturn (w : Writer) : Writer :=
  _writeByte w CALL_RET

/-- `endReturn`: empty inline, as `endArg`. -/
def endReturn (w : Writer) : Writer :=
  w

/-- `Writer::beginArray` (lines 236-239). -/
def beginArray (w : Writer) (length : Nat) : Writer :=
  _writeUInt (_writeByte w TYPE_ARRAY) length

/-- `Writer::beginStruct` (lines 241-252). -/
def beginStruct (w : Writer) (sig : StructSig) : Writer :=
  let w1 := _writeByte w TYPE_STRUCT
  let w2 := _writeUInt w1 sig.id
  let p := lookup w2.structs sig.id
  let w3 := { w2 with structs := p.2 }
  if p.1 then w3
  else
    let wa := _writeString w3 sig.name
    let wb := _writeUInt wa sig.members.length
    let wc := sig.members.foldl (fun acc m => _writeString acc m) wb
    { wc with structs := wc.structs.set sig.id true }

/-- `Writer::writeBool` (lines 254-256). -/
def writeBool (w : Writer) (value : Bool) : Writer :=
  _writeByte w (if value then TYPE_TRUE else TYPE_FALSE)

/-- `Writer::writeSInt` (lines 258-266).  `_writeUInt` takes an
`unsigned long long`, so the argument (`-value` in the negative branch) is
reduced modulo `2^64` by the integer conversion. -/
def writeSInt (w : Writer) (value : Int) : Writer :=
  if value < 0 then
    _writeUInt (_writeByte w TYPE_SINT) ((-value % 2 ^ 64).toNat)
  else
    _writeUInt (_writeByte w TYPE_UINT) ((value % 2 ^ 64).toNat)

/-- `Writer::writeUInt` (lines 268-271). -/
def writeUInt (w : Writer) (value : Nat) : Writer :=
  _writeUInt (_writeByte w TYPE_UINT) value

/-- `Writer::writeFloat` (lines 273-276): the 4 raw bytes of the native
float representation are supplied externally (floating point is not
modelled). -/
def writeFloat (w : Writer) (raw : List Nat) : Writer :=
  _write (_writeByte w TYPE_FLOAT) raw

/-- `Writer::writeDouble` (lines 278-281): as `writeFloat` with 8 raw
bytes. -/
def writeDouble (w : Writer) (raw : List Nat) : Writer :=
  _write (_writeByte w TYPE_DOUBLE) raw

/-- `Writer::writeNull` (lines 350-352). -/
def writeNull (w : Writer) : Writer :=
  _writeByte w TYPE_NULL

/-- `Writer::writeString` (lines 283-290): a null pointer becomes the NULL
value, else tag plus length-prefixed bytes. -/
def writeString (w : Writer) (str : Option (List Nat)) : Writer :=
  match str with
  | none => writeNull w
  | some s => _writeString (_writeByte w TYPE_STRING) s

/-- `Writer::writeBlob` (lines 311-321): `data` is the pointer (null = 0)
and `bytes` the memory it points at; a zero size skips the raw-byte
write. -/
def writeBlob (w : Writer) (data : Nat) (bytes : List Nat) (size : Nat) :
    Writer :=
  if data = 0 then writeNull w
  else
    let w1 := _writeUInt (_writeByte w TYPE_BLOB) size
    if size ≠ 0 then _write w1 bytes else w1

/-- `Writer::writeEnum` (lines 323-331). -/
def writeEnum (w : Writer) (sig : EnumSig) : Writer :=
  let w1 := _writeByte w TYPE_ENUM
  let w2 := _writeUInt w1 sig.id
  let p := lookup w2.enums sig.id
  let w3 := { w2 with enums := p.2 }
  if p.1 then w3
  else
    let wa := _writeString w3 sig.name
    let wb := writeSInt wa sig.value
    { wb with enums := wb.enums.set sig.id true }

/-- `Writer::writeBitmask` (lines 333-348); the zero-flag warning is an
external debug message. -/
def writeBitmask (w : Writer) (sig : BitmaskSig) (value : Nat) : Writer :=
  let w1 := _writeByte w TYPE_BITMASK
  let w2 := _writeUInt w1 sig.id
  let p := lookup w2.bitmasks sig.id
  let w3 := { w2 with bitmasks := p.2 }
  let w4 :=
    if p.1 then w3
    else
      let wa := _writeUInt w3 sig.flags.length
      let wb := sig.flags.foldl
        (fun acc f => _writeUInt (_writeString acc f.name) f.value) wa
      { wb with bitmasks := wb.bitmasks.set sig.id true }
  _writeUInt w4 value

/-- `Writer::writeOpaque` (lines 354-361). -/
def writeOpaque (w : Writer) (addr : Nat) : Writer :=
  if addr = 0 then writeNull w
  else _writeUInt (_writeByte w TYPE_OPAQUE) addr

/-- A writer right after a successful `open` on a fresh process: open
stream, nothing written, counter 0, empty caches. -/
def freshWriter : Writer :=
  { gzOpen := true, out := [], call_no := 0,
    functions := [], structs := [], enums := [], bitmasks := [] }

/-- A writer whose `open` failed: null stream handle. -/
def closedWriter : Writer :=
  { gzOpen := false, out := [], call_no := 0,
    functions := [], structs := [], enums := [], bitmasks := [] }

theorem write_closed (w : Writer) (buf : List Nat) (h : w.gzOpen = false) :
    _write w buf = w := by
  simp [_write, h]

theorem foldl_writeString_closed (l : List (List Nat)) (w : Writer)
    (h : w.gzOpen = false) :
    l.foldl (fun acc a => _writeString acc a) w = w := by
  induction l with
  | nil => rfl
  | cons x xs ih =>
    rw [List.foldl_cons]
    have hx : _writeString w x = w := by
      simp only [_writeString, _writeUInt, write_closed _ _ h]
    rw [hx, ih]

theorem foldl_flags_closed (l : List BitmaskFlag) (w : Writer)
    (h : w.gzOpen = false) :
    l.foldl (fun acc f => _writeUInt (_writeString acc f.name) f.value) w
      = w := by
  induction l with
  | nil => rfl
  | cons x xs ih =>
    rw [List.foldl_cons]
    have hx : _writeUInt (_writeString w x.name) x.value = w := by
      simp only [_writeString, _writeUInt, write_closed _ _ h]
    rw [hx, ih]

theorem writeSInt_closed (w : Writer) (v : Int) (h : w.gzOpen = false) :
    writeSInt w v = w := by
  rw [writeSInt]
  split <;>
    simp only [_writeUInt, _writeByte, write_closed _ _ h]

/-- C6: `open(filename)` closes any prior stream, reports failure iff the
stream cannot be created, and on success resets the call counter to 0,
empties all four definition caches (so any id is re-described on the new
session) and starts the new stream with exactly the varint-encoded version
constant. -/
theorem open_spec (w : Writer) (ok : Bool) (id : Nat) :
    (openFile w ok).1 = ok ∧
    (openFile w false).2.gzOpen = false ∧
    (openFile w true).2.call_no = 0 ∧
    ((openFile w true).2.functions = [] ∧ (openFile w true).2.structs = [] ∧
      (openFile w true).2.enums = [] ∧ (openFile w true).2.bitmasks = []) ∧
    (lookup (openFile w true).2.functions id).1 = false ∧
    (lookup (openFile w true).2.structs id).1 = false ∧
    (lookup (openFile w true).2.enums id).1 = false ∧
    (lookup (openFile w true).2.bitmasks id).1 = false ∧
    (openFile w true).2.out = writeUIntBytes TRACE_VERSION := by
  refine ⟨?_, ?_, ?_, ⟨?_, ?_, ?_, ?_⟩, ?_, ?_, ?_, ?_, ?_⟩ <;>
    first
      | (cases ok <;> rfl)
      | simp [openFile, close, _writeUInt, _write, lookup]

/-- C7: with no open stream, the low-level byte write returns without
effect, so every value write, framing write and end-of-frame flush pushes
no bytes onto the stream.  `beginEnter` lazily retries `open()` (lines
191-193); the conjunct takes the retry's external outcome as failed
(`autoOpenOk = false`), the "until a later successful open" case of the
claim — a successful retry opens the stream and writes resume. -/
theorem closed_writes_noop (w : Writer) (h : w.gzOpen = false)
    (buf : List Nat) (c v index length size data call addr : Nat)
    (s raw bytes : List Nat) (str : Option (List Nat)) (b : Bool) (i : Int)
    (fsig : FunctionSig) (ssig : StructSig) (esig : EnumSig)
    (bsig : BitmaskSig) :
    (_write w buf).out = w.out ∧
    (_writeByte w c).out = w.out ∧
    (_writeUInt w v).out = w.out ∧
    (_writeString w s).out = w.out ∧
    ((beginEnter false w fsig).2).out = w.out ∧
    (endEnter w).out = w.out ∧
    (beginLeave w call).out = w.out ∧
    (endLeave w).out = w.out ∧
    (beginArg w index).out = w.out ∧
    (beginReturn w).out = w.out ∧
    (beginArray w length).out = w.out ∧
    (beginStruct w ssig).out = w.out ∧
    (writeBool w b).out = w.out ∧
    (writeSInt w i).out = w.out ∧
    (writeUInt w v).out = w.out ∧
    (writeFloat w raw).out = w.out ∧
    (writeDouble w raw).out = w.out ∧
    (writeString w str).out = w.out ∧
    (writeBlob w data bytes size).out = w.out ∧
    (writeEnum w esig).out = w.out ∧
    (writeBitmask w bsig v).out = w.out ∧
    (writeNull w).out = w.out ∧
    (writeOpaque w addr).out = w.out := by
  have hB : ∀ w' : Writer, w'.gzOpen = false → ∀ c', _writeByte w' c' = w' :=
    fun w' h' c' => write_closed _ _ h'
  have hU : ∀ w' : Writer, w'.gzOpen = false → ∀ v', _writeUInt w' v' = w' :=
    fun w' h' v' => write_closed _ _ h'
  have hS : ∀ w' : Writer, w'.gzOpen = false → ∀ s', _writeString w' s' = w' :=
    fun w' h' s' => by
      simp only [_writeString, _writeUInt, write_closed _ _ h']
  refine ⟨?_, ?_, ?_, ?_, ?_, ?_, ?_, ?_, ?_, ?_, ?_, ?_, ?_, ?_, ?_, ?_,
    ?_, ?_, ?_, ?_, ?_, ?_, ?_⟩
  · simp [write_closed, h]
  · simp [_writeByte, write_closed, h]
  · simp [_writeUInt, write_closed, h]
  · simp [hS, h]
  · simp only [beginEnter, openAuto, openFile, close]
    simp [hB, hU, hS, foldl_writeString_closed, h, apply_ite Writer.out]
  · simp [endEnter, hB, h]
  · simp [beginLeave, hB, hU, h]
  · simp [endLeave, hB, h]
  · simp [beginArg, hB, hU, h]
  · simp [beginReturn, hB, h]
  · simp [beginArray, hB, hU, h]
  · simp only [beginStruct]
    simp [hB, hU, hS, foldl_writeString_closed, h, apply_ite Writer.out]
  · simp [writeBool, hB, h]
  · simp [writeSInt_closed, h]
  · simp [writeUInt, hB, hU, h]
  · simp [writeFloat, hB, write_closed, h]
  · simp [writeDouble, hB, write_closed, h]
  · cases str with
    | none => simp [writeString, writeNull, hB, h]
    | some s' => simp [writeString, writeNull, hB, hS, h]
  · rw [writeBlob]
    split
    · simp [writeNull, hB, h]
    · split <;> simp [hB, hU, write_closed, h]
  · simp only [writeEnum]
    simp [hB, hU, hS, writeSInt_closed, h, apply_ite Writer.out]
  · simp only [writeBitmask]
    simp [hB, hU, hS, foldl_flags_closed, h, apply_ite Writer.out,
      apply_ite Writer.gzOpen]
  · simp [writeNull, hB, h]
  · simp only [writeOpaque]
    split
    · simp [writeNull, hB, h]
    · simp [hB, hU, h]

/-- Witness for `closed_writes_noop`: a concrete closed writer, concrete
arguments. -/
theorem closed_writes_noop_witness :
    (_write closedWriter [1, 2]).out = closedWriter.out ∧
    (_writeByte closedWriter 3).out = closedWriter.out ∧
    (_writeUInt closedWriter 300).out = closedWriter.out ∧
    (_writeString closedWriter [65]).out = closedWriter.out ∧
    ((beginEnter false closedWriter ⟨0, [65], []⟩).2).out =
      closedWriter.out ∧
    (endEnter closedWriter).out = closedWriter.out ∧
    (beginLeave closedWriter 0).out = closedWriter.out ∧
    (endLeave closedWriter).out = closedWriter.out ∧
    (beginArg closedWriter 0).out = closedWriter.out ∧
    (beginReturn closedWriter).out = closedWriter.out ∧
    (beginArray closedWriter 2).out = closedWriter.out ∧
    (beginStruct closedWriter ⟨0, [66], []⟩).out = closedWriter.out ∧
    (writeBool closedWriter true).out = closedWriter.out ∧
    (writeSInt closedWriter (-5)).out = closedWriter.out ∧
    (writeUInt closedWriter 300).out = closedWriter.out ∧
    (writeFloat closedWriter [0, 0, 0, 0]).out = closedWriter.out ∧
    (writeDouble closedWriter [0, 0, 0, 0]).out = closedWriter.out ∧
    (writeString closedWriter (some [67])).out = closedWriter.out ∧
    (writeBlob closedWriter 4 [1] 1).out = closedWriter.out ∧
    (writeEnum closedWriter ⟨0, [68], 3⟩).out = closedWriter.out ∧
    (writeBitmask closedWriter ⟨0, []⟩ 300).out = closedWriter.out ∧
    (writeNull closedWriter).out = closedWriter.out ∧
    (writeOpaque closedWriter 9).out = closedWriter.out :=
  closed_writes_noop closedWriter rfl [1, 2] 3 300 0 2 1 4 0 9 [65]
    [0, 0, 0, 0] [1] (some [67]) true (-5) ⟨0, [65], []⟩ ⟨0, [66], []⟩
    ⟨0, [68], 3⟩ ⟨0, []⟩

/-- C8: `writeSInt` writes a `SINT` tag followed by the varint of the
absolute value when the value is negative, else a `UINT` tag followed by
the varint of the value (zero included); this holds for all representable
64-bit signed values, including the most negative one, because the
unsigned conversion of `-value` reduces modulo `2^64` to the absolute
value. -/
theorem writeSInt_spec (w : Writer) (v : Int) (h1 : -(2 ^ 63) ≤ v)
    (h2 : v < 2 ^ 63) :
    (v < 0 → writeSInt w v = _writeUInt (_writeByte w TYPE_SINT) v.natAbs) ∧
    (0 ≤ v → writeSInt w v = _writeUInt (_writeByte w TYPE_UINT) v.toNat) := by
  constructor
  · intro hneg
    rw [writeSInt, if_pos hneg]
    congr 1
    omega
  · intro hpos
    rw [writeSInt, if_neg (by omega)]
    congr 1
    omega

/-- Witness for `writeSInt_spec` at the most negative 64-bit value. -/
theorem writeSInt_spec_witness :
    writeSInt freshWriter (-(2 ^ 63)) =
      _writeUInt (_writeByte freshWriter TYPE_SINT)
        (Int.natAbs (-(2 ^ 63))) :=
  (writeSInt_spec freshWriter (-(2 ^ 63)) (by norm_num) (by norm_num)).1
    (by norm_num)

/-- The four signature kinds whose definition caches share the
`lookup`-based dedup discipline. -/
inductive SigKind
  | func
  | struc
  | enum
  | bitmask
deriving DecidableEq

/-- The four definition caches of one session (`Writer::functions`,
`structs`, `enums`, `bitmasks`), isolated from the rest of the writer
state for the cache-semantics claim. -/
structure Caches where
  functions : List Bool
  structs : List Bool
  enums : List Bool
  bitmasks : List Bool
deriving DecidableEq

/-- The cache vector for a kind. -/
def Caches.get : Caches → SigKind → List Bool
  | c, .func => c.functions
  | c, .struc => c.structs
  | c, .enum => c.enums
  | c, .bitmask => c.bitmasks

/-- Replace the cache vector for a kind. -/
def Caches.put : Caches → SigKind → List Bool → Caches
  | c, .func, m => { c with functions := m }
  | c, .struc, m => { c with structs := m }
  | c, .enum, m => { c with enums := m }
  | c, .bitmask, m => { c with bitmasks := m }

/-- One definition-cache interaction, exactly as every emission site
performs it (`beginEnter` lines 197-204, `beginStruct` lines 244-251,
`writeEnum` lines 326-330, `writeBitmask` lines 336-346): query `lookup`;
on a first sight (`false`) the site emits the full description and sets
the id's bit.  Returns the query result (`true` = already described). -/
def shouldDescribe (c : Caches) (k : SigKind) (id : Nat) : Bool × Caches :=
  let p := lookup (c.get k) id
  if p.1 then (true, c.put k p.2)
  else (false, c.put k (p.2.set id true))

/-- The caches at session start (`open` clears all four). -/
def emptyCaches : Caches := ⟨[], [], [], []⟩

/-- Run a session's sequence of definition-cache queries, collecting each
query's result. -/
def runQueries (c : Caches) : List (SigKind × Nat) → List Bool
  | [] => []
  | q :: rest =>
    let p := shouldDescribe c q.1 q.2
    p.1 :: runQueries p.2 rest

theorem lookup_fst (m : List Bool) (idx : Nat) :
    (lookup m idx).1 = m.getD idx false := by
  rw [lookup]
  split
  · rw [List.getD_eq_default]
    omega
  · rfl

theorem getD_replicate_false (n t : Nat) :
    (List.replicate n false).getD t false = false := by
  by_cases ht : t < n
  · rw [List.getD_eq_getElem _ _ (by simpa using ht)]
    simp
  · rw [List.getD_eq_default]
    simpa using ht

theorem getD_pad (m : List Bool) (n j : Nat) :
    (m ++ List.replicate n false).getD j false = m.getD j false := by
  by_cases hj : j < m.length
  · exact List.getD_append _ _ _ _ hj
  · rw [List.getD_append_right _ _ _ _ (by omega), getD_replicate_false,
      List.getD_eq_default _ _ (by omega)]

theorem getD_set_self (m : List Bool) :
    ∀ i : Nat, i < m.length → (m.set i true).getD i false = true := by
  induction m with
  | nil => intro i h; simp at h
  | cons b rest ih =>
    intro i h
    cases i with
    | zero => rfl
    | succ j =>
      simp only [List.set_cons_succ, List.getD_cons_succ]
      exact ih j (by simpa using h)

theorem getD_set_ne (m : List Bool) :
    ∀ i j : Nat, i ≠ j → ∀ b, (m.set i b).getD j false = m.getD j false := by
  induction m with
  | nil => intro i j _ b; rfl
  | cons x rest ih =>
    intro i j hne b
    cases i with
    | zero =>
      cases j with
      | zero => exact absurd rfl hne
      | succ t => rfl
    | succ s =>
      cases j with
      | zero => rfl
      | succ t =>
        simp only [List.set_cons_succ, List.getD_cons_succ]
        exact ih s t (by omega) b

theorem put_get (c : Caches) (k k' : SigKind) (m : List Bool) :
    (c.put k m).get k' = if k = k' then m else c.get k' := by
  cases k <;> cases k' <;> simp [Caches.get, Caches.put]

theorem lookup_snd_getD (m : List Bool) (idx j : Nat) :
    ((lookup m idx).2).getD j false = m.getD j false := by
  rw [lookup]
  split
  · exact getD_pad m _ j
  · rfl

theorem lookup_snd_len (m : List Bool) (idx : Nat) :
    idx < ((lookup m idx).2).length := by
  rw [lookup]
  split <;> rename_i h'
  · simp only [List.length_append, List.length_replicate]
    omega
  · show idx < m.length
    omega

theorem shouldDescribe_fst (c : Caches) (k : SigKind) (id : Nat) :
    (shouldDescribe c k id).1 = (c.get k).getD id false := by
  rw [shouldDescribe]
  split <;> rename_i hsplit <;> rw [lookup_fst] at hsplit
  · exact hsplit.symm
  · simp only [Bool.not_eq_true] at hsplit
    exact hsplit.symm

theorem shouldDescribe_get (c : Caches) (k : SigKind) (id : Nat)
    (k' : SigKind) (id' : Nat) :
    (((shouldDescribe c k id).2.get k').getD id' false) =
      if k' = k ∧ id' = id then true
      else (c.get k').getD id' false := by
  rw [shouldDescribe]
  split <;> rename_i hsplit <;> rw [lookup_fst] at hsplit <;>
    simp only [] <;> rw [put_get]
  · by_cases hk : k = k'
    · subst hk
      rw [if_pos rfl, lookup_snd_getD]
      by_cases hid : id' = id
      · subst hid
        rw [if_pos ⟨rfl, rfl⟩, hsplit]
      · rw [if_neg (by intro hc; exact hid hc.2)]
    · rw [if_neg hk, if_neg (by intro hc; exact hk hc.1.symm)]
  · by_cases hk : k = k'
    · subst hk
      rw [if_pos rfl]
      by_cases hid : id' = id
      · subst hid
        rw [if_pos ⟨rfl, rfl⟩]
        exact getD_set_self _ _ (lookup_snd_len _ _)
      · rw [if_neg (by intro hc; exact hid hc.2),
          getD_set_ne _ _ _ (by omega) _, lookup_snd_getD]
    · rw [if_neg hk, if_neg (by intro hc; exact hk hc.1.symm)]

theorem runQueries_spec :
    ∀ (seq : List (SigKind × Nat)) (c : Caches) (seen : List (SigKind × Nat)),
    (∀ k id, ((c.get k).getD id false = true) ↔ (k, id) ∈ seen) →
    ∀ i, i < seq.length →
      ((runQueries c seq).getD i false = true ↔
        seq.getD i (SigKind.func, 0) ∈ seen ++ seq.take i) := by
  intro seq
  induction seq with
  | nil =>
    intro c seen _ i hi
    simp at hi
  | cons q rest ih =>
    intro c seen hinv i hi
    cases i with
    | zero =>
      simp only [runQueries, List.getD_cons_zero, List.take_zero,
        List.append_nil]
      rw [shouldDescribe_fst]
      have := hinv q.1 q.2
      simpa using this
    | succ j =>
      simp only [runQueries, List.getD_cons_succ, List.take_succ_cons]
      have hinv' : ∀ k id,
          (((shouldDescribe c q.1 q.2).2.get k).getD id false = true) ↔
            (k, id) ∈ seen ++ [q] := by
        intro k id
        rw [shouldDescribe_get]
        by_cases he : k = q.1 ∧ id = q.2
        · rw [if_pos he]
          simp only [List.mem_append, List.mem_singleton]
          constructor
          · intro _
            right
            cases q
            simp_all
          · intro _
            trivial
        · rw [if_neg he, hinv k id]
          simp only [List.mem_append, List.mem_singleton]
          constructor
          · intro hm
            exact Or.inl hm
          · intro hm
            rcases hm with hm | hm
            · exact hm
            · exfalso
              apply he
              cases q
              simp_all
      have := ih (shouldDescribe c q.1 q.2).2 (seen ++ [q]) hinv' j
        (by simpa using hi)
      rw [this]
      constructor <;> intro hm <;>
        · simp only [List.mem_append, List.mem_singleton, List.mem_cons] at hm ⊢
          tauto

/-- C3: with the caches as they are at session start, the `lookup`-based
definition-cache query returns `false` (emit the full definition, and mark
the id) exactly on the first occurrence of a `(kind, id)` pair in the
session's query sequence, and `true` (already emitted, reference only) on
every later occurrence; the four kinds' id spaces are independent because
a query only consults and updates its own kind's cache. -/
theorem definition_cache_spec (seq : List (SigKind × Nat)) (i : Nat)
    (h : i < seq.length) :
    (runQueries emptyCaches seq).getD i false = true ↔
      seq.getD i (SigKind.func, 0) ∈ seq.take i := by
  have hbase : ∀ k id,
      ((emptyCaches.get k).getD id false = true) ↔
        (k, id) ∈ ([] : List (SigKind × Nat)) := by
    intro k id
    cases k <;> simp [Caches.get, emptyCaches]
  have := runQueries_spec seq emptyCaches [] hbase i h
  simpa using this

/-- Witness for `definition_cache_spec`: the sequence
`[(func, 5), (enum, 5), (func, 5)]` — the third query sees `(func, 5)`
again (`true`), even though the only intervening query was for the same id
in a different kind's space. -/
theorem definition_cache_spec_witness :
    (runQueries emptyCaches
      [(SigKind.func, 5), (SigKind.enum, 5), (SigKind.func, 5)]).getD 2
        false = true :=
  (definition_cache_spec
    [(SigKind.func, 5), (SigKind.enum, 5), (SigKind.func, 5)] 2
    (by decide)).mpr (by decide)

/-- Modelled from the spec: `range.hpp` is not in `src/`.  A half-open
interval `[start, stop)` of byte offsets (`range::range<size_t>`). -/
structure Range where
  start : Nat
  stop : Nat
deriving DecidableEq

/-- `range::range::intersects`, modelled from the spec: two half-open
intervals intersect when each starts before the other ends. -/
def Range.intersects (a b : Range) : Bool :=
  decide (a.start < b.stop) && decide (b.start < a.stop)

/-- `RangeInfo` (lines 363-366): a sub-range record — the interval plus
the checksum of its bytes as last emitted. -/
structure RangeInfo extends Range where
  crc : Nat
deriving DecidableEq

/-- Subtraction of one interval from another, modelled from the spec's
range-set ("a collection of disjoint numeric intervals supporting
subtraction"): at most a left and a right remainder piece, empty pieces
omitted. -/
def Range.subtract (a b : Range) : List Range :=
  (if a.start < min a.stop b.start then [⟨a.start, min a.stop b.start⟩]
   else []) ++
  (if max a.start b.stop < a.stop then [⟨max a.start b.stop, a.stop⟩]
   else [])

/-- `range::range_set::sub`, modelled from the spec: subtract the interval
from every member. -/
def rangeSetSub (s : List Range) (b : Range) : List Range :=
  s.flatMap (fun a => a.subtract b)

/-- `RegionInfo` (lines 370-375): a tracked memory region — its size, base
address, and the list of checksummed sub-range records. -/
structure RegionInfo where
  size : Nat
  start : Nat
  ranges : List RangeInfo
deriving DecidableEq

/-- The bytes at addresses `[addr, addr + len)` of the live memory
(`mem` is the external memory-inspection capability). -/
def readBytes (mem : Nat → Nat) (addr len : Nat) : List Nat :=
  (List.range len).map (fun i => mem (addr + i))

/-- Modelled from the spec: the checksum is zlib's 32-bit CRC
(`crc32(crc, buf, len)`), the standard reflected-polynomial CRC-32.  One
step of the bitwise update. -/
def crcStep (c : Nat) : Nat :=
  if c % 2 = 1 then (c >>> 1) ^^^ 0xedb88320 else c >>> 1

/-- CRC-32 update with one byte: xor in the byte, then eight polynomial
steps. -/
def crcByte (c b : Nat) : Nat :=
  crcStep (crcStep (crcStep (crcStep (crcStep (crcStep (crcStep (crcStep
    (c ^^^ (b % 256)))))))))

/-- `crc32(crc, bytes)` as zlib computes it: pre- and post-conditioning
with `0xffffffff` around the byte-wise update.  `crc32 0 [] = 0`, matching
the source's `crc32(0L, Z_NULL, 0)` seed. -/
def crc32 (crc : Nat) (bytes : List Nat) : Nat :=
  (bytes.foldl crcByte (crc ^^^ 0xffffffff)) ^^^ 0xffffffff

/-- The diff loop of `Writer::updateRegion` (lines 498-517): walk the
region's records; a record intersecting the update range has its checksum
recomputed over the live bytes — on a match the record is kept and its
span subtracted from the copy set, on a mismatch the record is erased (and
nothing is subtracted, so its bytes get recopied); records outside the
update range are kept untouched.  Returns the surviving records and the
final copy set. -/
def diffLoop (mem : Nat → Nat) (base : Nat) (update : Range) :
    List RangeInfo → List Range → List RangeInfo × List Range
  | [], copy => ([], copy)
  | r :: rest, copy =>
    if r.toRange.intersects update then
      let c := crc32 0 (readBytes mem (base + r.start) (r.stop - r.start))
      if r.crc = c then
        let p := diffLoop mem base update rest (rangeSetSub copy r.toRange)
        (r :: p.1, p.2)
      else
        diffLoop mem base update rest copy
    else
      let p := diffLoop mem base update rest copy
      (r :: p.1, p.2)

/-- `memcpy_sig` (lines 430-431): id 0, name "memcpy",
args "dest", "src", "n" (names as C-string bytes). -/
def memcpy_sig : FunctionSig :=
  { id := 0, name := [109, 101, 109, 99, 112, 121],
    args := [[100, 101, 115, 116], [115, 114, 99], [110]] }

/-- `malloc_sig` (lines 433-434): id 1, name "malloc", arg "size". -/
def malloc_sig : FunctionSig :=
  { id := 1, name := [109, 97, 108, 108, 111, 99],
    args := [[115, 105, 122, 101]] }

/-- `free_sig` (lines 436-437): id 2, name "free", arg "ptr". -/
def free_sig : FunctionSig :=
  { id := 2, name := [102, 114, 101, 101], args := [[112, 116, 114]] }

/-- `realloc_sig` (lines 439-440): id 3, name "realloc",
args "ptr", "size". -/
def realloc_sig : FunctionSig :=
  { id := 3, name := [114, 101, 97, 108, 108, 111, 99],
    args := [[112, 116, 114], [115, 105, 122, 101]] }

/-- The synthetic `malloc` call pair emitted by `lookupRegionInfo`
(lines 415-424) to introduce a fresh region. -/
def emitMallocEvent (ok : Bool) (w : Writer) (size start : Nat) :
    Writer :=
  let e := beginEnter ok w malloc_sig
  let w1 := beginArg e.2 0
  let w2 := writeUInt w1 size
  let w3 := endArg w2
  let w4 := endEnter w3
  let w5 := beginLeave w4 e.1
  let w6 := beginReturn w5
  let w7 := writeOpaque w6 start
  let w8 := endReturn w7
  endLeave w8

/-- The synthetic `memcpy` call emitted per copied range
(lines 524-536). -/
def emitMemcpyEvent (ok : Bool) (w : Writer) (p : Nat)
    (bytes : List Nat) (length : Nat) : Writer :=
  let e := beginEnter ok w memcpy_sig
  let w1 := beginArg e.2 0
  let w2 := writeOpaque w1 p
  let w3 := endArg w2
  let w4 := beginArg w3 1
  let w5 := writeBlob w4 p bytes length
  let w6 := endArg w5
  let w7 := beginArg w6 2
  let w8 := writeUInt w7 length
  let w9 := endArg w8
  let w10 := endEnter w9
  let w11 := beginLeave w10 e.1
  endLeave w11

/-- The emit loop of `Writer::updateRegion` (lines 519-545): for each
range of the copy set, emit a synthetic `memcpy` call carrying the live
bytes, and push a fresh checksummed record onto the front of the region's
record list. -/
def emitLoop (ok : Bool) (mem : Nat → Nat) (base : Nat) :
    Writer → List RangeInfo → List Range → Writer × List RangeInfo
  | w, ranges, [] => (w, ranges)
  | w, ranges, c :: cs =>
    let p := base + c.start
    let length := c.stop - c.start
    let bytes := readBytes mem p length
    let w' := emitMemcpyEvent ok w p bytes length
    let r : RangeInfo := ⟨⟨c.start, c.stop⟩, crc32 0 bytes⟩
    emitLoop ok mem base w' (r :: ranges) cs

/-- The region scan of `lookupRegionInfo` (lines 394-409): erase every
region whose extent intersects but mismatches the queried extent; stop at
an exact match.  Returns the updated list and the index of the match, if
any. -/
def scanRegions (info : Nat × Nat) :
    List RegionInfo → List RegionInfo × Option Nat
  | [] => ([], none)
  | r :: rest =>
    let start := r.start
    let stop := r.start + r.size
    if info.1 < stop ∧ info.2 > start then
      if info.1 = start ∧ info.2 = stop then (r :: rest, some 0)
      else scanRegions info rest
    else
      let p := scanRegions info rest
      (r :: p.1, (p.2).map (· + 1))

/-- `lookupRegionInfo` (lines 382-427): query the OS extent backing `ptr`
(`query`, external; `none` models a failed `queryVirtualAddress`), scan the
registry, and when no exact match survives, emit the synthetic `malloc`
pair and append a fresh record-less region.  Returns `none` on query
failure, else the writer, the updated registry and the index of the
resolved region. -/
def lookupRegionInfo (ok : Bool) (query : Nat → Option (Nat × Nat))
    (w : Writer) (regions : List RegionInfo) (ptr : Nat) :
    Option (Writer × List RegionInfo × Nat) :=
  match query ptr with
  | none => none
  | some info =>
    match scanRegions info regions with
    | (regions', some idx) => some (w, regions', idx)
    | (regions', none) =>
      let regionInfo : RegionInfo := ⟨info.2 - info.1, info.1, []⟩
      let w' := emitMallocEvent ok w regionInfo.size regionInfo.start
      some (w', regions' ++ [regionInfo], regions'.length)

/-- The result of one `updateRegion` call: the writer, the region
registry, and the copy set the emit loop ran over (one synthetic `memcpy`
event per element, in order). -/
structure UpdateResult where
  writer : Writer
  regions : List RegionInfo
  copies : List Range
deriving DecidableEq

/-- `Writer::updateRegion` (lines 446-550).  Null pointer: return at once.
Then resolve the region (a failed query aborts; resolution may already
have emitted a `malloc` event and grown the registry); a zero size returns
only after resolution.  Then diff the records against the update range and
emit one `memcpy` per surviving copy range.  The out-of-bounds condition
(lines 460-465) only emits an external warning.  The mutex is external.
`ok` is the external outcome of the lazy stream creation should a
synthetic event's `beginEnter` find no open stream. -/
def updateRegion (ok : Bool) (query : Nat → Option (Nat × Nat))
    (mem : Nat → Nat) (w : Writer) (regions : List RegionInfo)
    (ptr size : Nat) : UpdateResult :=
  if ptr = 0 then ⟨w, regions, []⟩
  else
    match lookupRegionInfo ok query w regions ptr with
    | none => ⟨w, regions, []⟩
    | some (w1, regions1, idx) =>
      if size = 0 then ⟨w1, regions1, []⟩
      else
        let regionInfo := regions1.getD idx ⟨0, 0, []⟩
        let start := ptr - regionInfo.start
        let stop := start + size
        let update : Range := ⟨start, stop⟩
        let d := diffLoop mem regionInfo.start update regionInfo.ranges
          [update]
        let e := emitLoop ok mem regionInfo.start w1 d.1 d.2
        ⟨e.1, regions1.set idx { regionInfo with ranges := e.2 }, d.2⟩

/-- A sequence of `updateRegion` calls, each with its own lazy-open
outcome, query result and memory contents (memory may change between
calls). -/
def runUpdates :
    List (Bool × (Nat → Option (Nat × Nat)) × (Nat → Nat) × Nat × Nat) →
    Writer → List RegionInfo → Writer × List RegionInfo
  | [], w, regions => (w, regions)
  | c :: cs, w, regions =>
    let r := updateRegion c.1 c.2.1 c.2.2.1 w regions c.2.2.2.1 c.2.2.2.2
    runUpdates cs r.writer r.regions

/-- Query map for the concrete scenarios: address 1000 is backed by the
extent `[1000, 1100)`. -/
def q1000 : Nat → Option (Nat × Nat) :=
  fun p => if p = 1000 then some (1000, 1100) else none

/-- Scenario memory: all bytes zero. -/
def memZero : Nat → Nat := fun _ => 0

/-- Scenario memory after the caller mutates bytes `[40, 60)` of the
region at 1000 (addresses `[1040, 1060)`). -/
def memMut : Nat → Nat := fun a => if 1040 ≤ a ∧ a < 1060 then 1 else 0

theorem lookup_exact (ok : Bool) (q : Nat → Option (Nat × Nat))
    (w : Writer) (base size' : Nat) (rs : List RangeInfo)
    (hq : q base = some (base, base + size')) (hsz : 0 < size') :
    lookupRegionInfo ok q w [⟨size', base, rs⟩] base =
      some (w, [⟨size', base, rs⟩], 0) := by
  rw [lookupRegionInfo, hq]
  have hscan : scanRegions (base, base + size') [⟨size', base, rs⟩] =
      ([⟨size', base, rs⟩], some 0) := by
    rw [scanRegions]
    rw [if_pos (by constructor <;> simp <;> omega)]
    rw [if_pos (by constructor <;> simp)]
  simp only [hscan]

theorem updateRegion_some (ok : Bool) (q : Nat → Option (Nat × Nat))
    (mem : Nat → Nat) (w w1 : Writer)
    (regions regions1 : List RegionInfo)
    (ptr size idx : Nat) (hp : ptr ≠ 0)
    (hl : lookupRegionInfo ok q w regions ptr = some (w1, regions1, idx))
    (hs : size ≠ 0) :
    updateRegion ok q mem w regions ptr size =
      (let regionInfo := regions1.getD idx ⟨0, 0, []⟩
       let start := ptr - regionInfo.start
       let update : Range := ⟨start, start + size⟩
       let d := diffLoop mem regionInfo.start update regionInfo.ranges
         [update]
       let e := emitLoop ok mem regionInfo.start w1 d.1 d.2
       ⟨e.1, regions1.set idx { regionInfo with ranges := e.2 }, d.2⟩) := by
  rw [updateRegion, if_neg hp, hl]
  simp only [if_neg hs]

/-- C4: for a region with no prior sub-range records, `updateRegion` over
`[0,100)` emits exactly one synthetic copy event covering `[0,100)`, and
an immediately repeated identical call with unchanged bytes emits zero
copy events. -/
theorem region_diff_minimality (ok : Bool) (mem : Nat → Nat)
    (q : Nat → Option (Nat × Nat)) (w : Writer) (base : Nat)
    (hb : base ≠ 0) (hq : q base = some (base, base + 100)) :
    (updateRegion ok q mem w [⟨100, base, []⟩] base 100).copies =
      [⟨0, 100⟩] ∧
    (updateRegion ok q mem
      (updateRegion ok q mem w [⟨100, base, []⟩] base 100).writer
      (updateRegion ok q mem w [⟨100, base, []⟩] base 100).regions
      base 100).copies = [] := by
  have h1 : updateRegion ok q mem w [⟨100, base, []⟩] base 100 =
      ⟨(emitLoop ok mem base w [] [⟨0, 100⟩]).1,
        [⟨100, base,
          [⟨⟨0, 100⟩, crc32 0 (readBytes mem base 100)⟩]⟩],
        [⟨0, 100⟩]⟩ := by
    rw [updateRegion_some ok q mem w w [⟨100, base, []⟩] [⟨100, base, []⟩]
      base 100 0 hb (lookup_exact ok q w base 100 [] hq (by omega))
      (by omega)]
    simp only [List.getD_cons_zero, Nat.sub_self, Nat.zero_add,
      Nat.add_zero, Nat.sub_zero, diffLoop, emitLoop, List.set_cons_zero]
  refine ⟨by rw [h1], ?_⟩
  rw [h1]
  rw [updateRegion_some ok q mem _ _ _ _ base 100 0 hb
    (lookup_exact ok q _ base 100 _ hq (by omega)) (by omega)]
  simp only [List.getD_cons_zero, Nat.sub_self, Nat.zero_add, Nat.add_zero,
    Nat.sub_zero, diffLoop]
  simp [rangeSetSub, Range.subtract, diffLoop]
  rw [if_pos (by decide)]

/-- Witness for `region_diff_minimality`: the concrete region `[1000,1100)`
with all-zero memory. -/
theorem region_diff_minimality_witness :
    (updateRegion true q1000 memZero freshWriter [⟨100, 1000, []⟩] 1000
      100).copies = [⟨0, 100⟩] ∧
    (updateRegion true q1000 memZero
      (updateRegion true q1000 memZero freshWriter [⟨100, 1000, []⟩] 1000
        100).writer
      (updateRegion true q1000 memZero freshWriter [⟨100, 1000, []⟩] 1000
        100).regions
      1000 100).copies = [] :=
  region_diff_minimality true memZero q1000 freshWriter 1000 (by decide)
    (by decide)

set_option maxRecDepth 40000

theorem readBytes_memZero :
    readBytes memZero 1000 100 =
      List.replicate 20 0 ++ (List.replicate 20 0 ++ (List.replicate 20 0 ++
        (List.replicate 20 0 ++ List.replicate 20 0))) := by
  decide

theorem readBytes_memMut :
    readBytes memMut 1000 100 =
      List.replicate 20 0 ++ (List.replicate 20 0 ++ (List.replicate 20 1 ++
        (List.replicate 20 0 ++ List.replicate 20 0))) := by
  decide

theorem crc_chunk_z1 :
    List.foldl crcByte 0xffffffff (List.replicate 20 0) = 4029310066 := by
  decide

theorem crc_chunk_z2 :
    List.foldl crcByte 4029310066 (List.replicate 20 0) = 370393678 := by
  decide

theorem crc_chunk_z3 :
    List.foldl crcByte 370393678 (List.replicate 20 0) = 4226643703 := by
  decide

theorem crc_chunk_z4 :
    List.foldl crcByte 4226643703 (List.replicate 20 0) = 1910302489 := by
  decide

theorem crc_chunk_z5 :
    List.foldl crcByte 1910302489 (List.replicate 20 0) = 1719089461 := by
  decide

theorem crc_chunk_m3 :
    List.foldl crcByte 370393678 (List.replicate 20 1) = 2676478889 := by
  decide

theorem crc_chunk_m4 :
    List.foldl crcByte 2676478889 (List.replicate 20 0) = 3399940525 := by
  decide

theorem crc_chunk_m5 :
    List.foldl crcByte 3399940525 (List.replicate 20 0) = 3547816256 := by
  decide

theorem crc_memZero : crc32 0 (readBytes memZero 1000 100) = 2575877834 := by
  rw [readBytes_memZero, crc32, List.foldl_append, List.foldl_append,
    List.foldl_append, List.foldl_append]
  rw [Nat.zero_xor, crc_chunk_z1, crc_chunk_z2, crc_chunk_z3, crc_chunk_z4,
    crc_chunk_z5]
  decide

theorem crc_memMut : crc32 0 (readBytes memMut 1000 100) = 747151039 := by
  rw [readBytes_memMut, crc32, List.foldl_append, List.foldl_append,
    List.foldl_append, List.foldl_append]
  rw [Nat.zero_xor, crc_chunk_z1, crc_chunk_z2, crc_chunk_m3, crc_chunk_m4,
    crc_chunk_m5]
  decide

theorem crc_ne :
    crc32 0 (readBytes memZero 1000 100) ≠
      crc32 0 (readBytes memMut 1000 100) := by
  rw [crc_memZero, crc_memMut]
  decide

/-- C1 counterexample: prior state is exactly one record covering
`[0,100)` whose checksum matches the bytes as last emitted (`memZero`);
the caller mutates only bytes `[40,60)` (`memMut`); the subsequent
`updateRegion` over the whole span emits one copy event covering the
whole `[0,100)` — not `[40,60)` — because the record's checksum no longer
matches, so the record is discarded whole and nothing is subtracted from
the copy set. -/
theorem partial_change_counterexample :
    (updateRegion true q1000 memMut freshWriter
      [⟨100, 1000, [⟨⟨0, 100⟩, crc32 0 (readBytes memZero 1000 100)⟩]⟩]
      1000 100).copies = [⟨0, 100⟩] ∧
    ((⟨0, 100⟩ : Range) ≠ ⟨40, 60⟩) := by
  constructor
  · rw [updateRegion_some true q1000 memMut freshWriter freshWriter _ _
      1000 100 0 (by decide)
      (lookup_exact true q1000 freshWriter 1000 100 _ (by decide)
        (by omega))
      (by omega)]
    simp only [List.getD_cons_zero, Nat.sub_self, Nat.zero_add,
      Nat.add_zero, Nat.sub_zero, diffLoop]
    rw [if_pos (by decide), if_neg crc_ne]
  · decide

/-- C1 (amended): with a single prior record covering `[0,100)` whose
stored checksum no longer matches the live bytes (as after a mutation of
`[40,60)` only), `updateRegion` over `[0,100)` emits exactly one synthetic
copy event, and it covers the whole record span `[0,100)`: the stale
record is discarded entirely rather than subtracted, so all of its bytes
are recopied, and a single fresh record over `[0,100)` with the new
checksum replaces it. -/
theorem partial_change_spec (ok : Bool) (mem : Nat → Nat)
    (q : Nat → Option (Nat × Nat)) (w : Writer) (base c0 : Nat)
    (hb : base ≠ 0) (hq : q base = some (base, base + 100))
    (hcrc : c0 ≠ crc32 0 (readBytes mem base 100)) :
    (updateRegion ok q mem w [⟨100, base, [⟨⟨0, 100⟩, c0⟩]⟩] base
      100).copies = [⟨0, 100⟩] ∧
    (updateRegion ok q mem w [⟨100, base, [⟨⟨0, 100⟩, c0⟩]⟩] base
      100).regions =
      [⟨100, base,
        [⟨⟨0, 100⟩, crc32 0 (readBytes mem base 100)⟩]⟩] := by
  rw [updateRegion_some ok q mem w w _ _ base 100 0 hb
    (lookup_exact ok q w base 100 _ hq (by omega)) (by omega)]
  simp only [List.getD_cons_zero, Nat.sub_self, Nat.zero_add, Nat.add_zero,
    Nat.sub_zero, diffLoop]
  rw [if_pos (by decide), if_neg hcrc]
  simp only [diffLoop, emitLoop, Nat.sub_zero, Nat.add_zero,
    List.set_cons_zero]
  constructor <;> trivial

/-- Witness for `partial_change_spec`: the concrete scenario of the
counterexample (record checksum over `memZero`, live bytes `memMut`). -/
theorem partial_change_spec_witness :
    (updateRegion true q1000 memMut freshWriter
      [⟨100, 1000, [⟨⟨0, 100⟩, crc32 0 (readBytes memZero 1000 100)⟩]⟩]
      1000 100).copies = [⟨0, 100⟩] ∧
    (updateRegion true q1000 memMut freshWriter
      [⟨100, 1000, [⟨⟨0, 100⟩, crc32 0 (readBytes memZero 1000 100)⟩]⟩]
      1000 100).regions =
      [⟨100, 1000,
        [⟨⟨0, 100⟩, crc32 0 (readBytes memMut 1000 100)⟩]⟩] :=
  partial_change_spec true memMut q1000 freshWriter 1000
    (crc32 0 (readBytes memZero 1000 100)) (by decide) (by decide) crc_ne

/-- C5 counterexample: `updateRegion` with non-null `ptr` and `size = 0`
is not a no-op when the pointer resolves to a previously unknown extent —
region resolution runs before the size check, emits a synthetic `malloc`
event (bytes are written) and inserts the region into the registry. -/
theorem zero_size_emits_malloc :
    (updateRegion true q1000 memZero freshWriter [] 1000 0).regions =
      [⟨100, 1000, []⟩] ∧
    (updateRegion true q1000 memZero freshWriter [] 1000 0).writer.out ≠
      [] := by
  constructor
  · decide
  · decide

/-- C5 (amended): a null `ptr` makes `updateRegion` a complete no-op (no
event, registry untouched); a zero `size` guarantees that no copy event is
emitted, but because the zero-size check runs only after region
resolution, resolution may already have written a synthetic `malloc`
event and modified the registry. -/
theorem null_or_zero_spec (ok : Bool) (q : Nat → Option (Nat × Nat))
    (mem : Nat → Nat) (w : Writer) (regions : List RegionInfo)
    (ptr size : Nat) :
    updateRegion ok q mem w regions 0 size = ⟨w, regions, []⟩ ∧
    (size = 0 →
      (updateRegion ok q mem w regions ptr size).copies = []) := by
  constructor
  · rw [updateRegion, if_pos rfl]
  · intro hs
    subst hs
    rw [updateRegion]
    by_cases hp : ptr = 0
    · rw [if_pos hp]
    · rw [if_neg hp]
      cases hmatch : lookupRegionInfo ok q w regions ptr with
      | none => rfl
      | some t =>
        obtain ⟨w1, t2⟩ := t
        obtain ⟨regions1, idx⟩ := t2
        simp

/-- Witness for `null_or_zero_spec` at concrete inputs. -/
theorem null_or_zero_spec_witness :
    updateRegion true q1000 memZero freshWriter [] 0 7 =
      ⟨freshWriter, [], []⟩ ∧
    (updateRegion true q1000 memZero freshWriter [] 1000 0).copies = [] :=
  ⟨(null_or_zero_spec true q1000 memZero freshWriter [] 0 7).1,
    (null_or_zero_spec true q1000 memZero freshWriter [] 1000 0).2 rfl⟩

theorem write_functions (w : Writer) (buf : List Nat) :
    (_write w buf).functions = w.functions := by
  rw [_write]
  split <;> rfl

theorem foldl_ws_functions (l : List (List Nat)) (acc : Writer) :
    (l.foldl (fun a s => _writeString a s) acc).functions =
      acc.functions := by
  induction l generalizing acc with
  | nil => rfl
  | cons x xs ih =>
    rw [List.foldl_cons, ih]
    simp [_writeString, _writeUInt, write_functions]

theorem writeByte_functions (w : Writer) (c : Nat) :
    (_writeByte w c).functions = w.functions :=
  write_functions w [c]

theorem writeUInt_functions (w : Writer) (v : Nat) :
    (_writeUInt w v).functions = w.functions :=
  write_functions w (writeUIntBytes v)

theorem writeString_functions (w : Writer) (s : List Nat) :
    (_writeString w s).functions = w.functions := by
  rw [_writeString, write_functions, writeUInt_functions]

theorem beginEnter_functions_getD (ok : Bool) (w : Writer)
    (sig : FunctionSig) (j : Nat) :
    ((beginEnter ok w sig).2).functions.getD j false =
      if j = sig.id then true
      else (if w.gzOpen then w else openAuto w ok).functions.getD j
        false := by
  simp only [beginEnter]
  generalize (if w.gzOpen = true then w else openAuto w ok) = w0
  simp only [writeByte_functions, writeUInt_functions]
  split <;> rename_i hsplit <;> rw [lookup_fst] at hsplit
  · simp only [lookup_snd_getD]
    by_cases hj : j = sig.id
    · subst hj
      rw [if_pos rfl, hsplit]
    · rw [if_neg hj]
  · simp only [foldl_ws_functions, writeString_functions,
      writeUInt_functions]
    by_cases hj : j = sig.id
    · subst hj
      rw [if_pos rfl]
      exact getD_set_self _ _ (lookup_snd_len _ _)
    · rw [if_neg hj, getD_set_ne _ _ _ (by omega) _, lookup_snd_getD]

/-- C10: the synthetic pseudo-calls use fixed ids 0-3 (`memcpy`, `malloc`,
`free`, `realloc`) in the same function-id space and the same definition
cache as caller-supplied functions: after a `beginEnter` with any
`FunctionSig` of equal id — the pseudo-call's or the caller's — the cache
query reports the id as already described for both. -/
theorem pseudo_call_ids_shared (ok : Bool) (w : Writer)
    (f g : FunctionSig) (h : f.id = g.id) :
    memcpy_sig.id = 0 ∧ malloc_sig.id = 1 ∧ free_sig.id = 2 ∧
    realloc_sig.id = 3 ∧
    (lookup ((beginEnter ok w f).2).functions g.id).1 = true ∧
    (lookup ((beginEnter ok w g).2).functions f.id).1 = true := by
  refine ⟨rfl, rfl, rfl, rfl, ?_, ?_⟩
  · rw [lookup_fst, beginEnter_functions_getD, if_pos h.symm]
  · rw [lookup_fst, beginEnter_functions_getD, if_pos h]

/-- Witness for `pseudo_call_ids_shared`: a caller-supplied signature with
id 0 (`memcpy`'s id) and the `memcpy` pseudo-call signature itself. -/
theorem pseudo_call_ids_shared_witness :
    memcpy_sig.id = 0 ∧ malloc_sig.id = 1 ∧ free_sig.id = 2 ∧
    realloc_sig.id = 3 ∧
    (lookup ((beginEnter true freshWriter
      ⟨0, [103, 108], []⟩).2).functions memcpy_sig.id).1 = true ∧
    (lookup ((beginEnter true freshWriter memcpy_sig).2).functions
      (⟨0, [103, 108], []⟩ : FunctionSig).id).1 = true :=
  pseudo_call_ids_shared true freshWriter ⟨0, [103, 108], []⟩ memcpy_sig
    rfl

/-- Two intervals are separated: no byte offset lies in both. -/
def rdisj (a b : Range) : Prop :=
  a.stop ≤ b.start ∨ b.stop ≤ a.start

/-- Interval containment. -/
def within (x a : Range) : Prop :=
  a.start ≤ x.start ∧ x.stop ≤ a.stop

theorem rdisj_symm (a b : Range) (h : rdisj a b) : rdisj b a := by
  rw [rdisj] at *
  omega

theorem rdisj_mono (a b x y : Range) (hx : within x a) (hy : within y b)
    (h : rdisj a b) : rdisj x y := by
  rw [rdisj] at *
  rw [within] at hx hy
  omega

theorem rdisj_mono_left (a x k : Range) (hx : within x a)
    (h : rdisj a k) : rdisj x k := by
  rw [rdisj] at *
  rw [within] at hx
  omega

theorem within_trans (x a u : Range) (h1 : within x a) (h2 : within a u) :
    within x u := by
  rw [within] at *
  omega

theorem rdisj_intersects_false (a b : Range) (h : rdisj a b) :
    a.intersects b = false := by
  rw [Range.intersects]
  rw [rdisj] at h
  rcases h with h | h
  · have hb : ¬b.start < a.stop := by omega
    simp [hb]
  · have hb : ¬a.start < b.stop := by omega
    simp [hb]

theorem subtract_mem (a b x : Range) (hx : x ∈ a.subtract b) :
    within x a ∧ x.start < x.stop ∧ rdisj x b := by
  rw [Range.subtract, List.mem_append] at hx
  rcases hx with hx | hx
  · split at hx <;> rename_i hc
    · rw [List.mem_singleton] at hx
      subst hx
      refine ⟨⟨?_, ?_⟩, ?_, Or.inl ?_⟩ <;> simp <;> omega
    · simp at hx
  · split at hx <;> rename_i hc
    · rw [List.mem_singleton] at hx
      subst hx
      refine ⟨⟨?_, ?_⟩, ?_, Or.inr ?_⟩ <;> simp <;> omega
    · simp at hx

theorem subtract_pairwise (a b : Range) (hb : b.start ≤ b.stop) :
    List.Pairwise rdisj (a.subtract b) := by
  rw [Range.subtract]
  split <;> split <;>
    simp [List.pairwise_cons, rdisj] <;> omega

theorem rangeSetSub_mem (s : List Range) (b x : Range)
    (hx : x ∈ rangeSetSub s b) :
    ∃ a ∈ s, within x a ∧ x.start < x.stop ∧ rdisj x b := by
  rw [rangeSetSub, List.mem_flatMap] at hx
  obtain ⟨a, ha, hxa⟩ := hx
  exact ⟨a, ha, subtract_mem a b x hxa⟩

theorem rangeSetSub_pairwise (s : List Range) (b : Range)
    (hb : b.start ≤ b.stop) (hp : List.Pairwise rdisj s) :
    List.Pairwise rdisj (rangeSetSub s b) := by
  induction s with
  | nil => exact List.Pairwise.nil
  | cons a s ih =>
    rw [List.pairwise_cons] at hp
    rw [rangeSetSub, List.flatMap_cons, List.pairwise_append]
    refine ⟨subtract_pairwise a b hb, ih hp.2, ?_⟩
    intro x hx y hy
    obtain ⟨hxa, _, _⟩ := subtract_mem a b x hx
    obtain ⟨a', ha', hya', _, _⟩ := rangeSetSub_mem s b y hy
    exact rdisj_mono a a' x y hxa hya' (hp.1 a' ha')

/-- The diff loop keeps a sublist of the records; the copy set stays
pairwise disjoint, inside the update range, nonempty, refines the incoming
copy set, and is disjoint from every kept record. -/
theorem diffLoop_spec (mem : Nat → Nat) (base : Nat) (update : Range) :
    ∀ (rs : List RangeInfo) (copy : List Range),
    (∀ r ∈ rs, r.start < r.stop) →
    List.Pairwise (fun a b : RangeInfo => rdisj a.toRange b.toRange) rs →
    List.Pairwise rdisj copy →
    (∀ c ∈ copy, within c update) →
    (∀ c ∈ copy, c.start < c.stop) →
    (diffLoop mem base update rs copy).1.Sublist rs ∧
    List.Pairwise rdisj (diffLoop mem base update rs copy).2 ∧
    (∀ c ∈ (diffLoop mem base update rs copy).2, within c update) ∧
    (∀ c ∈ (diffLoop mem base update rs copy).2, c.start < c.stop) ∧
    (∀ c ∈ (diffLoop mem base update rs copy).2,
      ∃ c0 ∈ copy, within c c0) ∧
    (∀ c ∈ (diffLoop mem base update rs copy).2,
      ∀ k ∈ (diffLoop mem base update rs copy).1, rdisj c k.toRange) := by
  intro rs
  induction rs with
  | nil =>
    intro copy hwf hpr hpc hin hne
    refine ⟨List.nil_sublist _, hpc, hin, hne, ?_, ?_⟩
    · intro c hc
      exact ⟨c, hc, le_refl _, le_refl _⟩
    · intro c _ k hk
      simp [diffLoop] at hk
  | cons r rest ih =>
    intro copy hwf hpr hpc hin hne
    rw [List.pairwise_cons] at hpr
    have hrwf : r.start < r.stop := hwf r (by simp)
    have hwf' : ∀ x ∈ rest, x.start < x.stop :=
      fun x hx => hwf x (by simp [hx])
    rw [diffLoop]
    by_cases hint : r.toRange.intersects update = true
    · rw [if_pos hint]
      by_cases hcrc : r.crc =
          crc32 0 (readBytes mem (base + r.start) (r.stop - r.start))
      · rw [if_pos hcrc]
        simp only []
        have hpc' : List.Pairwise rdisj (rangeSetSub copy r.toRange) :=
          rangeSetSub_pairwise copy r.toRange (by omega) hpc
        have hin' : ∀ c ∈ rangeSetSub copy r.toRange, within c update := by
          intro c hc
          obtain ⟨a, ha, hca, _, _⟩ := rangeSetSub_mem copy _ c hc
          exact within_trans c a update hca (hin a ha)
        have hne' : ∀ c ∈ rangeSetSub copy r.toRange, c.start < c.stop := by
          intro c hc
          obtain ⟨a, ha, _, hlt, _⟩ := rangeSetSub_mem copy _ c hc
          exact hlt
        obtain ⟨ihsub, ihpr, ihin, ihne, ihref, ihcross⟩ :=
          ih (rangeSetSub copy r.toRange) hwf' hpr.2 hpc' hin' hne'
        refine ⟨List.Sublist.cons₂ r ihsub, ihpr, ihin, ihne, ?_, ?_⟩
        · intro c hc
          obtain ⟨c0, hc0, hcc0⟩ := ihref c hc
          obtain ⟨a, ha, hc0a, _, _⟩ := rangeSetSub_mem copy _ c0 hc0
          exact ⟨a, ha, within_trans c c0 a hcc0 hc0a⟩
        · intro c hc k hk
          rw [List.mem_cons] at hk
          rcases hk with hk | hk
          · subst hk
            obtain ⟨c0, hc0, hcc0⟩ := ihref c hc
            obtain ⟨a, ha, _, _, hdis⟩ := rangeSetSub_mem copy _ c0 hc0
            exact rdisj_mono_left c0 c k.toRange hcc0 hdis
          · exact ihcross c hc k hk
      · rw [if_neg hcrc]
        obtain ⟨ihsub, ihpr, ihin, ihne, ihref, ihcross⟩ :=
          ih copy hwf' hpr.2 hpc hin hne
        exact ⟨List.Sublist.cons r ihsub, ihpr, ihin, ihne, ihref,
          ihcross⟩
    · rw [if_neg hint]
      simp only []
      obtain ⟨ihsub, ihpr, ihin, ihne, ihref, ihcross⟩ :=
        ih copy hwf' hpr.2 hpc hin hne
      refine ⟨List.Sublist.cons₂ r ihsub, ihpr, ihin, ihne, ihref, ?_⟩
      intro c hc k hk
      rw [List.mem_cons] at hk
      rcases hk with hk | hk
      · subst hk
        have hcu := ihin c hc
        rw [Range.intersects] at hint
        simp only [Bool.and_eq_true, decide_eq_true_eq, not_and,
          Bool.not_eq_true] at hint
        rw [within] at hcu
        rw [rdisj]
        by_cases h1 : k.toRange.start < update.stop
        · have h2 := hint h1
          simp only [decide_eq_false_iff_not] at h2
          omega
        · omega
      · exact ihcross c hc k hk

theorem emitLoop_snd (ok : Bool) (mem : Nat → Nat) (base : Nat) :
    ∀ (cs : List Range) (w : Writer) (ranges : List RangeInfo),
    (emitLoop ok mem base w ranges cs).2 =
      (cs.map (fun c => (⟨⟨c.start, c.stop⟩,
        crc32 0 (readBytes mem (base + c.start) (c.stop - c.start))⟩ :
          RangeInfo))).reverse ++ ranges := by
  intro cs
  induction cs with
  | nil =>
    intro w ranges
    simp [emitLoop]
  | cons c cs ih =>
    intro w ranges
    rw [emitLoop]
    rw [ih]
    simp [List.reverse_cons, List.append_assoc]

/-- Well-formedness of a region's record list: every record is a nonempty
span and the records are pairwise separated. -/
def wfRanges (l : List RangeInfo) : Prop :=
  (∀ r ∈ l, r.start < r.stop) ∧
    List.Pairwise (fun a b : RangeInfo => rdisj a.toRange b.toRange) l

theorem scanRegions_mem (info : Nat × Nat) :
    ∀ (rs : List RegionInfo) (reg : RegionInfo),
    reg ∈ (scanRegions info rs).1 → reg ∈ rs := by
  intro rs
  induction rs with
  | nil =>
    intro reg h
    simpa [scanRegions] using h
  | cons r rest ih =>
    intro reg h
    rw [scanRegions] at h
    split at h
    · split at h
      · exact h
      · exact List.mem_cons_of_mem r (ih reg h)
    · simp only [] at h
      rw [List.mem_cons] at h
      rcases h with h | h
      · simp [h]
      · exact List.mem_cons_of_mem r (ih reg h)

theorem lookupRegionInfo_mem (ok : Bool)
    (q : Nat → Option (Nat × Nat)) (w w1 : Writer)
    (regions regions1 : List RegionInfo) (ptr idx : Nat)
    (hl : lookupRegionInfo ok q w regions ptr =
      some (w1, regions1, idx)) :
    ∀ reg ∈ regions1, reg ∈ regions ∨ reg.ranges = [] := by
  rw [lookupRegionInfo] at hl
  cases hq : q ptr with
  | none =>
    rw [hq] at hl
    simp at hl
  | some info =>
    rw [hq] at hl
    simp only [] at hl
    cases hscan : scanRegions info regions with
    | mk regions' found =>
      rw [hscan] at hl
      cases found with
      | some i =>
        simp only [Option.some.injEq, Prod.mk.injEq] at hl
        obtain ⟨-, h2, -⟩ := hl
        intro reg hreg
        left
        apply scanRegions_mem info regions reg
        rw [hscan]
        simp only []
        rw [h2]
        exact hreg
      | none =>
        simp only [Option.some.injEq, Prod.mk.injEq] at hl
        obtain ⟨-, h2, -⟩ := hl
        intro reg hreg
        rw [← h2, List.mem_append] at hreg
        rcases hreg with hreg | hreg
        · left
          apply scanRegions_mem info regions reg
          rw [hscan]
          exact hreg
        · right
          rw [List.mem_singleton] at hreg
          rw [hreg]

theorem updateRegion_none (ok : Bool) (q : Nat → Option (Nat × Nat))
    (mem : Nat → Nat) (w : Writer) (regions : List RegionInfo)
    (ptr size : Nat) (hp : ptr ≠ 0)
    (hl : lookupRegionInfo ok q w regions ptr = none) :
    updateRegion ok q mem w regions ptr size = ⟨w, regions, []⟩ := by
  rw [updateRegion, if_neg hp, hl]

theorem updateRegion_zero (ok : Bool) (q : Nat → Option (Nat × Nat))
    (mem : Nat → Nat) (w w1 : Writer)
    (regions regions1 : List RegionInfo) (ptr idx : Nat) (hp : ptr ≠ 0)
    (hl : lookupRegionInfo ok q w regions ptr =
      some (w1, regions1, idx)) :
    updateRegion ok q mem w regions ptr 0 = ⟨w1, regions1, []⟩ := by
  rw [updateRegion, if_neg hp, hl]
  rfl

theorem newRanges_wf (ok : Bool) (mem : Nat → Nat) (base : Nat)
    (update : Range) (rs : List RangeInfo) (w : Writer)
    (hwf : wfRanges rs) (hupd : update.start < update.stop) :
    wfRanges (emitLoop ok mem base w
      (diffLoop mem base update rs [update]).1
      (diffLoop mem base update rs [update]).2).2 := by
  obtain ⟨hsub, hpr2, hin2, hne2, href2, hcross2⟩ :=
    diffLoop_spec mem base update rs [update] hwf.1 hwf.2
      (List.pairwise_singleton _ _)
      (by
        intro c hc
        rw [List.mem_singleton] at hc
        subst hc
        exact ⟨le_refl _, le_refl _⟩)
      (by
        intro c hc
        rw [List.mem_singleton] at hc
        subst hc
        exact hupd)
  rw [emitLoop_snd]
  constructor
  · intro r hr
    rw [List.mem_append, List.mem_reverse, List.mem_map] at hr
    rcases hr with ⟨c, hc, hcr⟩ | hr
    · rw [← hcr]
      exact hne2 c hc
    · exact hwf.1 r (hsub.subset hr)
  · rw [List.pairwise_append]
    refine ⟨?_, List.Pairwise.sublist hsub hwf.2, ?_⟩
    · rw [List.pairwise_reverse, List.pairwise_map]
      refine hpr2.imp ?_
      intro a b h
      exact rdisj_symm a b h
    · intro a ha b hb
      rw [List.mem_reverse, List.mem_map] at ha
      obtain ⟨c, hc, hca⟩ := ha
      rw [← hca]
      exact hcross2 c hc b hb

theorem updateRegion_inv (ok : Bool) (q : Nat → Option (Nat × Nat))
    (mem : Nat → Nat) (w : Writer) (regions : List RegionInfo)
    (ptr size : Nat) (hinv : ∀ reg ∈ regions, wfRanges reg.ranges) :
    ∀ reg ∈ (updateRegion ok q mem w regions ptr size).regions,
      wfRanges reg.ranges := by
  by_cases hp : ptr = 0
  · rw [updateRegion, if_pos hp]
    exact hinv
  cases hl : lookupRegionInfo ok q w regions ptr with
  | none =>
    rw [updateRegion_none ok q mem w regions ptr size hp hl]
    exact hinv
  | some t =>
    obtain ⟨w1, t2⟩ := t
    obtain ⟨regions1, idx⟩ := t2
    have hinv1 : ∀ reg ∈ regions1, wfRanges reg.ranges := by
      intro reg hr
      rcases lookupRegionInfo_mem ok q w w1 regions regions1 ptr idx hl
          reg hr
        with h | h
      · exact hinv reg h
      · rw [wfRanges, h]
        exact ⟨by simp, List.Pairwise.nil⟩
    by_cases hs : size = 0
    · subst hs
      rw [updateRegion_zero ok q mem w w1 regions regions1 ptr idx hp hl]
      exact hinv1
    · rw [updateRegion_some ok q mem w w1 regions regions1 ptr size idx
        hp hl hs]
      intro reg hreg
      rcases List.mem_or_eq_of_mem_set hreg with h | h
      · exact hinv1 reg h
      · rw [h]
        have hriwf : wfRanges (regions1.getD idx ⟨0, 0, []⟩).ranges := by
          by_cases hidx : idx < regions1.length
          · rw [List.getD_eq_getElem _ _ hidx]
            exact hinv1 _ (List.getElem_mem hidx)
          · rw [List.getD_eq_default _ _ (by omega)]
            exact ⟨by simp, List.Pairwise.nil⟩
        exact newRanges_wf ok mem (regions1.getD idx ⟨0, 0, []⟩).start
          ⟨ptr - (regions1.getD idx ⟨0, 0, []⟩).start,
            ptr - (regions1.getD idx ⟨0, 0, []⟩).start + size⟩
          (regions1.getD idx ⟨0, 0, []⟩).ranges w1 hriwf
          (by simp only []; omega)

theorem runUpdates_inv :
    ∀ (calls : List (Bool × (Nat → Option (Nat × Nat)) × (Nat → Nat) ×
      Nat × Nat))
    (w : Writer) (regions : List RegionInfo),
    (∀ reg ∈ regions, wfRanges reg.ranges) →
    ∀ reg ∈ (runUpdates calls w regions).2, wfRanges reg.ranges := by
  intro calls
  induction calls with
  | nil =>
    intro w regions hinv
    exact hinv
  | cons c cs ih =>
    intro w regions hinv
    rw [runUpdates]
    exact ih _ _ (updateRegion_inv c.1 c.2.1 c.2.2.1 w regions c.2.2.2.1
      c.2.2.2.2 hinv)

/-- C9: starting from an empty region registry, after any sequence of
`updateRegion` calls (each with its own memory contents and OS query
results) the sub-range records of every region in the registry are
pairwise non-overlapping half-open spans. -/
theorem subrange_records_nonoverlapping
    (calls : List (Bool × (Nat → Option (Nat × Nat)) × (Nat → Nat) ×
      Nat × Nat))
    (w : Writer) (reg : RegionInfo)
    (hmem : reg ∈ (runUpdates calls w []).2) :
    List.Pairwise
      (fun a b : RangeInfo => a.toRange.intersects b.toRange = false)
      reg.ranges := by
  have h := runUpdates_inv calls w [] (by simp) reg hmem
  exact h.2.imp (fun hab => rdisj_intersects_false _ _ hab)

/-- Query map for the C9 witness: address 16 backed by `[16, 20)`. -/
def q16 : Nat → Option (Nat × Nat) :=
  fun p => if p = 16 then some (16, 20) else none

/-- Memory for the C9 witness: every byte is 7. -/
def mem7 : Nat → Nat := fun _ => 7

/-- Witness for `subrange_records_nonoverlapping`: one concrete
`updateRegion` call creating a region with one record. -/
theorem subrange_records_nonoverlapping_witness :
    List.Pairwise
      (fun a b : RangeInfo => a.toRange.intersects b.toRange = false)
      (RegionInfo.ranges
        ⟨4, 16, [⟨⟨0, 4⟩, crc32 0 (readBytes mem7 16 4)⟩]⟩) :=
  subrange_records_nonoverlapping [(true, q16, mem7, 16, 4)] freshWriter
    ⟨4, 16, [⟨⟨0, 4⟩, crc32 0 (readBytes mem7 16 4)⟩]⟩ (by decide)
